import Mathlib

/-!
Shallow embedding of the dataset-construction and negative-sampling
subsystem of `tr4hd/data_utils.py` (hypernym discovery).

Modelling conventions:
* the external tokenizer is a black-box parameter `enc : String → List Nat`
  giving the (already truncated-to-`max_length`, per its documented contract)
  id sequence for a string;
* `np.random` draws are a parameter `buffers : Nat → Nat → Nat`, where
  `buffers r i` is entry `i` of the `r`-th refill of the sampling buffer
  (`np.random.randint(len(candidate_ids), size=buffer_size)` is modelled by
  taking the entry modulo `len(candidate_ids)`);
* `np.random.shuffle` calls are parameters (`shuffleG`, `shuffleP`), used in
  theorems under the hypothesis that they permute their argument;
* the unbounded rejection-sampling `while` loop carries explicit fuel and
  returns `none` when the fuel is exhausted;
* Python exceptions are an explicit `DataError` value;
* in-place mutation of `train_data["gold_hypernym_candidate_ids"]` is modelled
  by also returning the final state of that list of lists.
-/

def PAD_TOKEN : Nat := 0

def SEGMENT_ID : Nat := 0

def MASK_PADDING_WITH_ZERO : Bool := true

/-- The Python exceptions raised by `data_utils.py`, as explicit values. -/
inductive DataError where
  | invalidRatio : DataError
  | nonTermination : DataError
  | indexError : DataError
  | typeError : DataError
  | unpackError : DataError
  | assertError : DataError
  | tensorError : DataError
  | shapeMismatch : List (Nat × Nat) → DataError
  | invalidLabel : Nat → DataError
deriving DecidableEq

/-- The `TensorDataset(input_ids, nb_tokens, candidate_ids, candidate_labels)`
returned by `make_q_and_c_dataset`, with tensors as lists. -/
structure TensorDataset where
  input_ids : List (List Nat)
  nb_tokens : List Nat
  candidate_ids : List (List Nat)
  candidate_labels : List (List Nat)
deriving DecidableEq

/-- Model of `encode_string_inputs`: tokenize each string (black box `enc`, truncating to
`maxLen` per the documented tokenizer contract), record the unpadded length,
and pad with `PAD_TOKEN` up to `maxLen`. -/
def encode_string_inputs (enc : String → List Nat) (maxLen : Nat) (strings : List String) :
    List (List Nat) × List Nat :=
  (strings.map fun s =>
      (enc s).take maxLen ++ List.replicate (maxLen - ((enc s).take maxLen).length) PAD_TOKEN,
   strings.map fun s => ((enc s).take maxLen).length)

/-- One step of building the `nb_candidates_fd` frequency dict: Python dicts keep
insertion order, so the dict is an association list; a present key is
incremented, an absent key is appended with count 1. -/
def fdAdd (fd : List (Nat × Nat)) (k : Nat) : List (Nat × Nat) :=
  if fd.any fun p => p.1 == k then
    fd.map fun p => if p.1 = k then (p.1, p.2 + 1) else p
  else fd ++ [(k, 1)]

/-- The frequency dict of a list of keys, built left to right. -/
def fdOf (ks : List Nat) : List (Nat × Nat) :=
  ks.foldl fdAdd []

/-- The dict `nb_candidates_fd` of `make_q_and_c_dataset`: frequency of the per-query
candidate-list lengths. -/
def nbCandidatesFd (cs : List (List Nat)) : List (Nat × Nat) :=
  fdOf (cs.map List.length)

/-- The verbose example-logging loop `for i in range(5)` of
`make_q_and_c_dataset`: iteration `i` reads `queries[i]` (IndexError when out of
range), then subscripts `candidate_labels` (TypeError when it is `None`,
IndexError when `i` is out of its range). Returns the first exception hit. -/
def verboseLoop (queries : List String) (labels : Option (List (List Nat))) :
    Nat → Nat → Option DataError
  | 0, _ => none
  | steps + 1, i =>
    if queries.length ≤ i then some .indexError
    else
      match labels with
      | none => some .typeError
      | some ls =>
        if ls.length ≤ i then some .indexError
        else verboseLoop queries labels steps (i + 1)

/-- The five iterations of the verbose example-logging loop. -/
def verboseCheck (queries : List String) (labels : Option (List (List Nat))) :
    Option DataError :=
  verboseLoop queries labels 5 0

/-- Python truthiness of the optional `candidate_labels` argument
(`if candidate_labels:`): `None` and the empty list are falsy. -/
def labelsTruthy (candidate_labels : Option (List (List Nat))) : Bool :=
  match candidate_labels with
  | some ls => !ls.isEmpty
  | none => false

/-- The label-domain scan of `make_q_and_c_dataset`: when the labels are
truthy, the first label (in iteration order) that is neither 1 nor 0 — the one
whose value the raised `ValueError` names. -/
def badLabel (candidate_labels : Option (List (List Nat))) : Option Nat :=
  if labelsTruthy candidate_labels then
    (candidate_labels.getD []).flatten.find? fun v => !(v == 1) && !(v == 0)
  else none

/-- Model of `make_q_and_c_dataset`: checks the `len(queries) == len(candidate_ids)`
assert, the equal-candidate-count invariant (via `nb_candidates_fd`), the label
domain; then encodes the queries, runs the verbose logging loop, and builds the
final tensors (`torch.tensor` on `None` labels raises; on a ragged label list
raises; `TensorDataset` asserts equal first dimensions). -/
def make_q_and_c_dataset (enc : String → List Nat) (maxLen : Nat) (queries : List String)
    (candidate_ids : List (List Nat)) (candidate_labels : Option (List (List Nat)))
    (verbose : Bool) : Except DataError TensorDataset :=
  if queries.length ≠ candidate_ids.length then .error .assertError
  else if 1 < (nbCandidatesFd candidate_ids).length then
    .error (.shapeMismatch (nbCandidatesFd candidate_ids))
  else
    match badLabel candidate_labels with
    | some v => .error (.invalidLabel v)
    | none =>
      match (if verbose then verboseCheck queries candidate_labels else none) with
      | some e => .error e
      | none =>
        match candidate_labels with
        | none => .error .typeError
        | some ls =>
          if 1 < (fdOf (ls.map List.length)).length then .error .tensorError
          else if ls.length ≠ queries.length then .error .tensorError
          else .ok ⟨(encode_string_inputs enc maxLen queries).1,
                    (encode_string_inputs enc maxLen queries).2, candidate_ids, ls⟩

/-- The constant `buffer_size` of `sample_negative_examples`. -/
def bufferSize : Nat := 1000000

/-- The rejection-sampling `while len(neg) < nb_neg` loop of
`sample_negative_examples` for one query, with explicit fuel. State: current
buffer refill `r`, cursor `bi` into it, accumulated negatives `neg`. A draw is
`candidate_ids[sampled_indices[buffer_index]]`; the cursor is advanced (with a
refill wrap when it reaches `buffer_size`) before the positive-set test. -/
def negLoop (cands : List Nat) (pos : List Nat) (nbNeg : Nat) (buffers : Nat → Nat → Nat) :
    Nat → Nat → Nat → List Nat → Option (List Nat × Nat × Nat)
  | fuel, r, bi, neg =>
    if nbNeg ≤ neg.length then some (neg, r, bi)
    else
      match fuel with
      | 0 => none
      | fuel' + 1 =>
        let idx := buffers r bi % cands.length
        let r' := if bi + 1 = bufferSize then r + 1 else r
        let bi' := if bi + 1 = bufferSize then 0 else bi + 1
        let c := cands.getD idx 0
        if c ∈ pos then negLoop cands pos nbNeg buffers fuel' r' bi' neg
        else negLoop cands pos nbNeg buffers fuel' r' bi' (neg ++ [c])

/-- The `for i in range(nb_queries)` loop of `sample_negative_examples`,
threading the shared buffer state left to right across queries. -/
def sampleNegLoop (cands : List Nat) (B : Nat) (buffers : Nat → Nat → Nat) (fuel : Nat) :
    List (List Nat) → Nat → Nat → Option (List (List Nat))
  | [], _, _ => some []
  | pos :: rest, r, bi =>
    match negLoop cands pos (B - pos.length) buffers fuel r bi [] with
    | none => none
    | some (neg, r', bi') =>
      match sampleNegLoop cands B buffers fuel rest r' bi' with
      | none => none
      | some negs => some (neg :: negs)

/-- Model of `sample_negative_examples(candidate_ids, pos_candidate_ids,
per_query_nb_examples)`. The entry call `np.random.randint(len(candidate_ids),
size=buffer_size)` raises when the candidate list is empty. `none` means no
normal return (exception or exhausted fuel). -/
def sample_negative_examples (cands : List Nat) (posLists : List (List Nat)) (B : Nat)
    (buffers : Nat → Nat → Nat) (fuel : Nat) : Option (List (List Nat)) :=
  if cands.isEmpty then none
  else sampleNegLoop cands B buffers fuel posLists 0 0

/-- The positive-subsampling step of `make_train_set`:
`if len(pos) > max_pos: gold_cand_ids[i] = pos[:max_pos]`. -/
def truncGold (maxPos : Nat) (l : List Nat) : List Nat :=
  if maxPos < l.length then l.take maxPos else l

/-- The bound `max_pos = int(max_pos_ratio * opt.per_query_nb_examples)`; for a ratio in
`(0, 1]` the `int()` truncation equals the floor. -/
def maxPosOf (maxPosRatio : ℚ) (B : Nat) : Nat :=
  (⌊maxPosRatio * (B : ℚ)⌋).toNat

/-- The state of `train_data["gold_hypernym_candidate_ids"]` after the shuffle
and subsample loops of `make_train_set`: each list shuffled in place, then
replaced by its `max_pos`-prefix when longer than `max_pos`. -/
def goldTruncOf (maxPosRatio : ℚ) (B : Nat) (shuffleG : List Nat → List Nat)
    (gold : List (List Nat)) : List (List Nat) :=
  (gold.map shuffleG).map (truncGold (maxPosOf maxPosRatio B))

/-- The per-query `xy` pair lists of `make_train_set`: positives labelled 1,
then sampled negatives labelled 0, shuffled together. -/
def trainPairs (shuffleP : List (Nat × Nat) → List (Nat × Nat)) (nq : Nat)
    (goldTrunc negs : List (List Nat)) : List (List (Nat × Nat)) :=
  (List.range nq).map fun i =>
    shuffleP (((goldTrunc.getD i []).map fun x => (x, 1)) ++
      ((negs.getD i []).map fun x => (x, 0)))

/-- Model of `make_train_set`. Validates `max_pos_ratio ∈ (0,1]`; shuffles each gold
list in place; truncates each to `max_pos = int(max_pos_ratio *
per_query_nb_examples)`; samples negatives; per query shuffles the
`(id, 1)`/`(id, 0)` pairs and unzips them (`zip(*[])` raises on an empty pair
list; indexing past the end of the gold or negatives lists raises); assembles
via `make_q_and_c_dataset`. Returns the dataset together with the final
(mutated) state of `train_data["gold_hypernym_candidate_ids"]`. -/
def make_train_set (enc : String → List Nat) (maxLen : Nat) (B : Nat) (maxPosRatio : ℚ)
    (shuffleG : List Nat → List Nat) (shuffleP : List (Nat × Nat) → List (Nat × Nat))
    (queries : List String) (candidates : List String) (gold : List (List Nat))
    (buffers : Nat → Nat → Nat) (fuel : Nat) (verbose : Bool) :
    Except DataError (TensorDataset × List (List Nat)) :=
  if maxPosRatio ≤ 0 ∨ 1 < maxPosRatio then .error .invalidRatio
  else
    match sample_negative_examples (List.range candidates.length)
        (goldTruncOf maxPosRatio B shuffleG gold) B buffers fuel with
    | none => .error .nonTermination
    | some negs =>
      if (goldTruncOf maxPosRatio B shuffleG gold).length < queries.length then
        .error .indexError
      else if (trainPairs shuffleP queries.length (goldTruncOf maxPosRatio B shuffleG gold)
          negs).any List.isEmpty then .error .unpackError
      else
        match make_q_and_c_dataset enc maxLen queries
            ((trainPairs shuffleP queries.length (goldTruncOf maxPosRatio B shuffleG gold)
              negs).map (List.map Prod.fst))
            (some ((trainPairs shuffleP queries.length
              (goldTruncOf maxPosRatio B shuffleG gold) negs).map (List.map Prod.snd)))
            verbose with
        | .error e => .error e
        | .ok ds => .ok (ds, goldTruncOf maxPosRatio B shuffleG gold)

/-- The per-query label vector of `make_dev_set`: `y = [0] * nb_candidates`,
then `y[c] = 1` for each gold candidate id `c`. -/
def devLabels (nb : Nat) (goldI : List Nat) : List Nat :=
  goldI.foldl (fun y c => y.set c 1) (List.replicate nb 0)

/-- Model of `make_dev_set`: every query gets a copy of the full candidate-id range
`[0, nb_candidates)` and a 0/1 label vector with 1 at the gold ids (`y[c]`
raises IndexError for an out-of-range gold id, as does `gold_cand_ids[i]` when
the gold list is shorter than the query list). -/
def make_dev_set (enc : String → List Nat) (maxLen : Nat) (queries : List String)
    (candidates : List String) (gold : List (List Nat)) : Except DataError TensorDataset :=
  if gold.length < queries.length then .error .indexError
  else if (gold.take queries.length).flatten.any (fun c => candidates.length ≤ c) then
    .error .indexError
  else
    make_q_and_c_dataset enc maxLen queries
      ((List.range queries.length).map fun _ => List.range candidates.length)
      (some ((List.range queries.length).map fun i =>
        devLabels candidates.length (gold.getD i []))) false

/-- The options consumed by `get_missing_inputs`. -/
structure EncOpt where
  encoder_type : String
  max_seq_length : Nat

/-- The dict returned by `get_missing_inputs`. -/
structure MissingInputs where
  token_type_ids : Option (List (List Nat))
  langs : Option (List (List Nat))
  attention_mask : List (List Nat)

/-- Model of `get_missing_inputs`: segment ids for BERT, language ids for XLM, and the
attention mask `[1] * nb_tok + [0] * (max_seq_length - nb_tok)` per example
(a negative Python padding length yields the empty list, i.e. truncated
subtraction). -/
def get_missing_inputs (opt : EncOpt) (token_ids : List (List Nat)) (nb_tokens : List Nat)
    (lang_id : Nat) : MissingInputs :=
  { token_type_ids :=
      if opt.encoder_type = "bert" then
        some (List.replicate token_ids.length
          (List.replicate (token_ids.headD []).length SEGMENT_ID))
      else none
    langs :=
      if opt.encoder_type = "xlm" then
        some (List.replicate token_ids.length
          (List.replicate (token_ids.headD []).length lang_id))
      else none
    attention_mask :=
      (List.range token_ids.length).map fun i =>
        List.replicate (nb_tokens.getD i 0) 1 ++
          List.replicate (opt.max_seq_length - nb_tokens.getD i 0)
            (if MASK_PADDING_WITH_ZERO then 0 else 1) }

/-- Value of a digit run (`int` on the captured group). -/
def digitsToNat (ds : List Char) : Nat :=
  ds.foldl (fun a c => 10 * a + (c.toNat - 48)) 0

/-- Attempt of the regex `{pat}([0-9]+)` at the start of `s`: `pat` must be a
literal prefix and be followed by at least one digit; the greedy group captures
the maximal digit run. -/
def matchStepAt (pat s : List Char) : Option Nat :=
  if pat.isPrefixOf s then
    let ds := (s.drop pat.length).takeWhile Char.isDigit
    if ds.isEmpty then none else some (digitsToNat ds)
  else none

/-- Model of the anchored regex match with a leading greedy dot-star: the
greedy prefix selects the rightmost position at which the pattern (the literal
prefix followed by one or more digits) matches. -/
def lastStepMatch (pat : List Char) : List Char → Option Nat
  | [] => none
  | c :: rest =>
    match lastStepMatch pat rest with
    | some n => some n
    | none => matchStepAt pat (c :: rest)

/-- The step number the retention manager extracts from a checkpoint path: a
regex match of the checkpoint prefix, a dash, and a captured digit run, after
a leading greedy dot-star. -/
def extractStep (pref path : String) : Option Nat :=
  lastStepMatch (pref.toList ++ ['-']) path.toList

/-- The ordering key attached to a checkpoint path: its modification time when
`use_mtime`, otherwise the regex-extracted step number (paths that do not match
are dropped). -/
def ckptKey (use_mtime : Bool) (mtime : String → Nat) (pref path : String) : Option Nat :=
  if use_mtime then some (mtime path) else extractStep pref path

/-- The Python `sorted` comparison on `(key, path)` tuples: by key, then by the
path string (code-point lexicographic). -/
def ckptLe (a b : Nat × String) : Prop :=
  a.1 < b.1 ∨ (a.1 = b.1 ∧ a.2 ≤ b.2)

instance : DecidableRel ckptLe := fun a b =>
  inferInstanceAs (Decidable (a.1 < b.1 ∨ (a.1 = b.1 ∧ a.2 ≤ b.2)))

instance : IsTotal (Nat × String) ckptLe := by
  constructor
  intro a b
  rcases Nat.lt_trichotomy a.1 b.1 with h | h | h
  · exact Or.inl (Or.inl h)
  · rcases le_total a.2 b.2 with h2 | h2
    · exact Or.inl (Or.inr ⟨h, h2⟩)
    · exact Or.inr (Or.inr ⟨h.symm, h2⟩)
  · exact Or.inr (Or.inl h)

instance : IsTrans (Nat × String) ckptLe := by
  constructor
  intro a b c hab hbc
  rcases hab with h1 | ⟨e1, l1⟩
  · rcases hbc with h2 | ⟨e2, _⟩
    · exact Or.inl (lt_trans h1 h2)
    · exact Or.inl (e2 ▸ h1)
  · rcases hbc with h2 | ⟨e2, l2⟩
    · exact Or.inl (e1 ▸ h2)
    · exact Or.inr ⟨e1.trans e2, le_trans l1 l2⟩

/-- The `ordering_and_checkpoint_path` list: each glob match paired with its
order key; non-matching paths (no numeric suffix, when ordering by name) are
silently dropped. -/
def ckptOrdering (use_mtime : Bool) (mtime : String → Nat) (pref : String)
    (glob_checkpoints : List String) : List (Nat × String) :=
  glob_checkpoints.filterMap fun p => (ckptKey use_mtime mtime pref p).map fun k => (k, p)

/-- Model of `rotate_checkpoints(save_total_limit, ...)`, as the list of checkpoint
paths it deletes, given the `glob` result. No-op when the limit is falsy
(`None`/`0`) or `≤ 0`, or when the number of glob matches is within the limit;
otherwise the matched `(key, path)` pairs are sorted ascending and the first
`len(sorted) - save_total_limit` paths are deleted. -/
def rotate_checkpoints (save_total_limit : Option Int) (glob_checkpoints : List String)
    (pref : String) (use_mtime : Bool) (mtime : String → Nat) : List String :=
  match save_total_limit with
  | none => []
  | some v =>
    if v = 0 then []
    else if v ≤ 0 then []
    else if (glob_checkpoints.length : Int) ≤ v then []
    else
      ((List.insertionSort ckptLe (ckptOrdering use_mtime mtime pref
          glob_checkpoints)).map Prod.snd).take
        (((List.insertionSort ckptLe (ckptOrdering use_mtime mtime pref
          glob_checkpoints)).map Prod.snd).length - v.toNat)

/-! ### Lemmas about the negative-sampling loop -/

/-- Accepted draws are never in the positive set: the loop only appends a drawn
candidate after the `not in pos_set` test. -/
theorem negLoop_sound (cands pos : List Nat) (nbNeg : Nat) (buffers : Nat → Nat → Nat) :
    ∀ (fuel r bi : Nat) (acc neg : List Nat) (r' bi' : Nat),
      negLoop cands pos nbNeg buffers fuel r bi acc = some (neg, r', bi') →
      (∀ x ∈ acc, x ∉ pos) → ∀ x ∈ neg, x ∉ pos := by
  intro fuel
  induction fuel with
  | zero =>
    intro r bi acc neg r' bi' h hacc
    rw [negLoop] at h
    split at h
    · rw [Option.some.injEq] at h
      obtain ⟨h1, _⟩ := Prod.mk.injEq .. ▸ h
      exact h1 ▸ hacc
    · exact absurd h (by simp)
  | succ n ih =>
    intro r bi acc neg r' bi' h hacc
    rw [negLoop] at h
    split at h
    · rw [Option.some.injEq] at h
      obtain ⟨h1, _⟩ := Prod.mk.injEq .. ▸ h
      exact h1 ▸ hacc
    · set idx := buffers r bi % cands.length with hidx
      by_cases hc : cands.getD idx 0 ∈ pos
      · rw [if_pos hc] at h
        exact ih _ _ _ _ _ _ h hacc
      · rw [if_neg hc] at h
        refine ih _ _ _ _ _ _ h ?_
        intro x hx
        rcases List.mem_append.mp hx with hx | hx
        · exact hacc x hx
        · rw [List.mem_singleton.mp hx]
          exact hc


/-- The loop starts from an accumulator not longer than the requested count and
appends one id per accepted draw, so a normal exit returns exactly the
requested number of negatives. -/
theorem negLoop_length (cands pos : List Nat) (nbNeg : Nat) (buffers : Nat → Nat → Nat) :
    ∀ (fuel r bi : Nat) (acc neg : List Nat) (r' bi' : Nat),
      negLoop cands pos nbNeg buffers fuel r bi acc = some (neg, r', bi') →
      acc.length ≤ nbNeg → neg.length = nbNeg := by
  intro fuel
  induction fuel with
  | zero =>
    intro r bi acc neg r' bi' h hacc
    rw [negLoop] at h
    split at h
    · rename_i hge
      simp only [Option.some.injEq, Prod.mk.injEq] at h
      obtain ⟨rfl, -, -⟩ := h
      omega
    · exact absurd h (by simp)
  | succ n ih =>
    intro r bi acc neg r' bi' h hacc
    rw [negLoop] at h
    split at h
    · rename_i hge
      simp only [Option.some.injEq, Prod.mk.injEq] at h
      obtain ⟨rfl, -, -⟩ := h
      omega
    · by_cases hc : cands.getD (buffers r bi % cands.length) 0 ∈ pos
      · rw [if_pos hc] at h
        exact ih _ _ _ _ _ _ h hacc
      · rename_i hlt
        rw [if_neg hc] at h
        refine ih _ _ _ _ _ _ h ?_
        rw [List.length_append, List.length_singleton]
        omega

/-- Inversion of one step of the per-query loop of `sample_negative_examples`. -/
theorem sampleNegLoop_cons_inv {cands : List Nat} {B : Nat} {buffers : Nat → Nat → Nat}
    {fuel : Nat} {pos : List Nat} {rest : List (List Nat)} {r bi : Nat}
    {negs : List (List Nat)}
    (h : sampleNegLoop cands B buffers fuel (pos :: rest) r bi = some negs) :
    ∃ neg r' bi' negs',
      negLoop cands pos (B - pos.length) buffers fuel r bi [] = some (neg, r', bi') ∧
      sampleNegLoop cands B buffers fuel rest r' bi' = some negs' ∧
      negs = neg :: negs' := by
  rw [sampleNegLoop] at h
  cases hl : negLoop cands pos (B - pos.length) buffers fuel r bi [] with
  | none => rw [hl] at h; simp at h
  | some trip =>
    obtain ⟨neg, r', bi'⟩ := trip
    rw [hl] at h
    simp only at h
    cases hr : sampleNegLoop cands B buffers fuel rest r' bi' with
    | none => rw [hr] at h; simp at h
    | some negs' =>
      rw [hr] at h
      simp only [Option.some.injEq] at h
      exact ⟨neg, r', bi', negs', rfl, hr, h.symm⟩

/-- The sampled-negatives lists are pairwise disjoint from the corresponding
positive sets, across all queries of one sampling call. -/
theorem sampleNegLoop_sound (cands : List Nat) (B : Nat) (buffers : Nat → Nat → Nat)
    (fuel : Nat) :
    ∀ (posLists : List (List Nat)) (r bi : Nat) (negs : List (List Nat)),
      sampleNegLoop cands B buffers fuel posLists r bi = some negs →
      List.Forall₂ (fun neg pos => ∀ x ∈ neg, x ∉ pos) negs posLists := by
  intro posLists
  induction posLists with
  | nil =>
    intro r bi negs h
    rw [sampleNegLoop, Option.some.injEq] at h
    rw [← h]
    exact List.Forall₂.nil
  | cons pos rest ih =>
    intro r bi negs h
    obtain ⟨neg, r', bi', negs', hl, hr, rfl⟩ := sampleNegLoop_cons_inv h
    exact List.Forall₂.cons
      (negLoop_sound cands pos _ buffers fuel r bi [] neg r' bi' hl (by simp))
      (ih r' bi' negs' hr)

/-- Each query receives exactly `max(0, per_query_nb_examples - len(pos))`
negatives on a normal return. -/
theorem sampleNegLoop_lengths (cands : List Nat) (B : Nat) (buffers : Nat → Nat → Nat)
    (fuel : Nat) :
    ∀ (posLists : List (List Nat)) (r bi : Nat) (negs : List (List Nat)),
      sampleNegLoop cands B buffers fuel posLists r bi = some negs →
      List.Forall₂ (fun neg pos => List.length neg = B - List.length pos) negs posLists := by
  intro posLists
  induction posLists with
  | nil =>
    intro r bi negs h
    rw [sampleNegLoop, Option.some.injEq] at h
    rw [← h]
    exact List.Forall₂.nil
  | cons pos rest ih =>
    intro r bi negs h
    obtain ⟨neg, r', bi', negs', hl, hr, rfl⟩ := sampleNegLoop_cons_inv h
    exact List.Forall₂.cons
      (negLoop_length cands pos _ buffers fuel r bi [] neg r' bi' hl (by simp))
      (ih r' bi' negs' hr)

/-- The disjointness property claimed of the Negative Sampler. -/
def NegDisjoint (negs posLists : List (List Nat)) : Prop :=
  List.Forall₂ (fun neg pos => ∀ x ∈ neg, x ∉ pos) negs posLists

/-- C1: for every call to `sample_negative_examples` and every query, no id in
the returned negative list for that query is a member of the positive set of
that query, including draws taken after a buffer refill (the theorem quantifies over
every buffer stream and every fuel, hence covers every wrap of `buffer_index`
past `buffer_size`). -/
theorem c1_negatives_disjoint (cands : List Nat) (posLists : List (List Nat)) (B : Nat)
    (buffers : Nat → Nat → Nat) (fuel : Nat) (negs : List (List Nat))
    (h : sample_negative_examples cands posLists B buffers fuel = some negs) :
    NegDisjoint negs posLists := by
  unfold sample_negative_examples at h
  split at h
  · exact absurd h (by simp)
  · exact sampleNegLoop_sound cands B buffers fuel posLists 0 0 negs h

theorem c1_negatives_disjoint_witness : NegDisjoint [[0]] [[1]] :=
  c1_negatives_disjoint [0, 1] [[1]] 2 (fun _ _ => 0) 5 [[0]] (by rfl)

/-- When every candidate id is in the positive set of the query, no draw is ever
accepted: the rejection loop runs the fuel out without extending `neg`. -/
theorem negLoop_stuck (cands pos : List Nat) (nbNeg : Nat) (buffers : Nat → Nat → Nat)
    (hcov : ∀ c ∈ cands, c ∈ pos) (hne : cands ≠ []) :
    ∀ (fuel r bi : Nat) (acc : List Nat), acc.length < nbNeg →
      negLoop cands pos nbNeg buffers fuel r bi acc = none := by
  intro fuel
  induction fuel with
  | zero =>
    intro r bi acc hlt
    rw [negLoop]
    rw [if_neg (by omega)]
  | succ n ih =>
    intro r bi acc hlt
    rw [negLoop]
    rw [if_neg (by omega)]
    have hidx : buffers r bi % cands.length < cands.length :=
      Nat.mod_lt _ (List.length_pos.mpr hne)
    have hc : cands.getD (buffers r bi % cands.length) 0 ∈ cands := by
      rw [List.getD_eq_getElem _ _ hidx]
      exact List.getElem_mem hidx
    rw [if_pos (hcov _ hc)]
    exact ih _ _ _ hlt

/-- A query whose positive set covers the candidate pool and still requires
negatives makes the whole per-query loop fail for every fuel. -/
theorem sampleNegLoop_stuck (cands : List Nat) (B : Nat) (buffers : Nat → Nat → Nat)
    (fuel : Nat) (hne : cands ≠ []) :
    ∀ (posLists : List (List Nat)) (i : Nat), i < posLists.length →
      (∀ c ∈ cands, c ∈ posLists.getD i []) → 0 < B - (posLists.getD i []).length →
      ∀ r bi, sampleNegLoop cands B buffers fuel posLists r bi = none := by
  intro posLists
  induction posLists with
  | nil => intro i hi; exact absurd hi (by simp)
  | cons pos rest ih =>
    intro i hi hcov hpos r bi
    rw [sampleNegLoop]
    cases i with
    | zero =>
      simp only [List.getD_cons_zero] at hcov hpos
      rw [negLoop_stuck cands pos (B - pos.length) buffers hcov hne fuel r bi []
        (by simpa using hpos)]
    | succ j =>
      cases hl : negLoop cands pos (B - pos.length) buffers fuel r bi [] with
      | none => rfl
      | some trip =>
        obtain ⟨neg, r', bi'⟩ := trip
        simp only
        rw [ih j (by simpa using hi) (by simpa using hcov) (by simpa using hpos) r' bi']

/-- C10: `sample_negative_examples` is total only under the precondition that
every query still requiring negatives has at least one candidate id outside its
positive set: if some query with a positive required negative count has a
positive set containing every candidate id, the rejection loop never accepts a
draw and the call never returns normally, whatever the random draws and however
much fuel is granted. -/
theorem c10_nontermination (cands : List Nat) (posLists : List (List Nat)) (B : Nat)
    (i : Nat) (buffers : Nat → Nat → Nat) (fuel : Nat)
    (hne : cands ≠ []) (hi : i < posLists.length)
    (hcov : ∀ c ∈ cands, c ∈ posLists.getD i [])
    (hreq : 0 < B - (posLists.getD i []).length) :
    sample_negative_examples cands posLists B buffers fuel = none := by
  unfold sample_negative_examples
  rw [if_neg (by simpa using hne)]
  exact sampleNegLoop_stuck cands B buffers fuel hne posLists i hi hcov hreq 0 0

theorem c10_nontermination_witness :
    sample_negative_examples [0] [[0]] 2 (fun _ _ => 0) 5 = none :=
  c10_nontermination [0] [[0]] 2 0 (fun _ _ => 0) 5 (by decide) (by decide)
    (by decide) (by decide)

/-! ### Lemmas about the length-frequency dict of the Dataset Assembler -/

/-- Invariant of the insertion-ordered frequency dict: entries are exactly the
keys seen so far paired with their multiplicities, and keys are unrepeated. -/
def fdInv (ks : List Nat) (fd : List (Nat × Nat)) : Prop :=
  (∀ k v, (k, v) ∈ fd ↔ (k ∈ ks ∧ v = ks.count k)) ∧ (fd.map Prod.fst).Nodup

theorem fdAdd_inv {ks : List Nat} {fd : List (Nat × Nat)} (k : Nat) (h : fdInv ks fd) :
    fdInv (ks ++ [k]) (fdAdd fd k) := by
  obtain ⟨hmem, hnd⟩ := h
  unfold fdAdd
  by_cases hk : fd.any fun p => p.1 == k
  · rw [if_pos hk]
    have hkks : k ∈ ks := by
      rw [List.any_eq_true] at hk
      obtain ⟨p, hp, hpk⟩ := hk
      rw [beq_iff_eq] at hpk
      have := (hmem p.1 p.2).mp (by rwa [Prod.mk.eta])
      exact hpk ▸ this.1
    constructor
    · intro k' v'
      constructor
      · intro hin
        rw [List.mem_map] at hin
        obtain ⟨p, hp, hpe⟩ := hin
        have hpm := (hmem p.1 p.2).mp (by rwa [Prod.mk.eta])
        by_cases hpk : p.1 = k
        · rw [if_pos hpk] at hpe
          simp only [Prod.mk.injEq] at hpe
          obtain ⟨rfl, rfl⟩ := hpe
          subst hpk
          refine ⟨List.mem_append_left _ hpm.1, ?_⟩
          rw [List.count_append, hpm.2]
          simp
        · rw [if_neg hpk] at hpe
          have hk' : p.1 = k' := by rw [hpe]
          have hv' : p.2 = v' := by rw [hpe]
          refine ⟨List.mem_append_left _ (hk' ▸ hpm.1), ?_⟩
          rw [← hk', ← hv', List.count_append, hpm.2]
          simp [hpk]
      · rintro ⟨hk', hv'⟩
        rw [List.mem_append] at hk'
        by_cases hke : k' = k
        · subst hke
          have hfd : (k', ks.count k') ∈ fd := (hmem k' (ks.count k')).mpr ⟨hkks, rfl⟩
          rw [List.mem_map]
          refine ⟨(k', ks.count k'), hfd, ?_⟩
          rw [if_pos rfl]
          rw [List.count_append] at hv'
          simp at hv'
          rw [hv']
        · have hkks' : k' ∈ ks := by
            rcases hk' with h | h
            · exact h
            · exact absurd (List.mem_singleton.mp h) hke
          have hfd : (k', ks.count k') ∈ fd := (hmem k' (ks.count k')).mpr ⟨hkks', rfl⟩
          rw [List.mem_map]
          refine ⟨(k', ks.count k'), hfd, ?_⟩
          rw [if_neg (by simpa using hke)]
          rw [List.count_append] at hv'
          simp [hke] at hv'
          rw [hv']
    · have : ((fd.map fun p => if p.1 = k then (p.1, p.2 + 1) else p).map Prod.fst)
          = fd.map Prod.fst := by
        rw [List.map_map]
        apply List.map_congr_left
        intro p _
        by_cases hpk : p.1 = k
        · rw [Function.comp_apply, if_pos hpk]
        · rw [Function.comp_apply, if_neg hpk]
      rw [this]
      exact hnd
  · rw [if_neg hk]
    have hknot : k ∉ ks := by
      intro hkk
      have := (hmem k (ks.count k)).mpr ⟨hkk, rfl⟩
      rw [List.any_eq_true] at hk
      exact hk ⟨(k, ks.count k), this, by simp⟩
    constructor
    · intro k' v'
      rw [List.mem_append, List.mem_singleton]
      constructor
      · intro hin
        rcases hin with hin | hin
        · have hpm := (hmem k' v').mp hin
          have hne : k' ≠ k := fun he => hknot (he ▸ hpm.1)
          refine ⟨List.mem_append_left _ hpm.1, ?_⟩
          rw [List.count_append, hpm.2]
          simp [hne]
        · rw [Prod.mk.injEq] at hin
          obtain ⟨rfl, rfl⟩ := hin
          refine ⟨List.mem_append_right _ (by simp), ?_⟩
          rw [List.count_append, List.count_eq_zero.mpr hknot]
          simp
      · rintro ⟨hk', hv'⟩
        rw [List.mem_append] at hk'
        by_cases hke : k' = k
        · subst hke
          right
          rw [List.count_append, List.count_eq_zero.mpr hknot] at hv'
          simp at hv'
          rw [Prod.mk.injEq]
          exact ⟨rfl, hv'⟩
        · have hkks' : k' ∈ ks := by
            rcases hk' with h | h
            · exact h
            · exact absurd (List.mem_singleton.mp h) hke
          left
          rw [List.count_append] at hv'
          simp [hke] at hv'
          exact (hmem k' v').mpr ⟨hkks', hv'⟩
    · rw [List.map_append]
      simp only [List.map_cons, List.map_nil]
      rw [List.nodup_append]
      refine ⟨hnd, List.nodup_singleton k, ?_⟩
      intro a ha hb
      rw [List.mem_singleton] at hb
      subst hb
      rw [List.mem_map] at ha
      obtain ⟨p, hp, hpa⟩ := ha
      have := (hmem p.1 p.2).mp (by rwa [Prod.mk.eta])
      exact hknot (hpa ▸ this.1)

theorem fdOf_inv_aux :
    ∀ (todo done : List Nat) (fd : List (Nat × Nat)),
      fdInv done fd → fdInv (done ++ todo) (todo.foldl fdAdd fd) := by
  intro todo
  induction todo with
  | nil => intro done fd h; simpa using h
  | cons k todo' ih =>
    intro done fd h
    have := ih (done ++ [k]) (fdAdd fd k) (fdAdd_inv k h)
    rw [List.append_assoc] at this
    simpa using this

/-- The frequency dict of `ks` holds exactly the distinct members of `ks` with
their multiplicities, without repeated keys. -/
theorem fdOf_inv (ks : List Nat) : fdInv ks (fdOf ks) := by
  have := fdOf_inv_aux ks [] [] ⟨by simp, by simp⟩
  simpa [fdOf] using this

/-- The dict has at most one entry exactly when all keys agree. -/
theorem fdOf_length_le_one_iff (ks : List Nat) :
    (fdOf ks).length ≤ 1 ↔ ∀ a ∈ ks, ∀ b ∈ ks, a = b := by
  obtain ⟨hmem, hnd⟩ := fdOf_inv ks
  constructor
  · intro hle a ha b hb
    have haf : (a, ks.count a) ∈ fdOf ks := (hmem a (ks.count a)).mpr ⟨ha, rfl⟩
    have hbf : (b, ks.count b) ∈ fdOf ks := (hmem b (ks.count b)).mpr ⟨hb, rfl⟩
    cases hfd : fdOf ks with
    | nil => rw [hfd] at haf; exact absurd haf (by simp)
    | cons p t =>
      cases t with
      | nil =>
        rw [hfd] at haf hbf
        rw [List.mem_singleton] at haf hbf
        have ha' : a = p.1 := by rw [← haf]
        have hb' : b = p.1 := by rw [← hbf]
        rw [ha', hb']
      | cons q u => rw [hfd] at hle; simp at hle
  · intro hall
    by_contra hgt
    push_neg at hgt
    cases hfd : fdOf ks with
    | nil => rw [hfd] at hgt; simp at hgt
    | cons p t =>
      cases t with
      | nil => rw [hfd] at hgt; simp at hgt
      | cons q u =>
        have hpf : p ∈ fdOf ks := by rw [hfd]; simp
        have hqf : q ∈ fdOf ks := by rw [hfd]; simp
        have hp1 : p.1 ∈ ks := ((hmem p.1 p.2).mp (by rwa [Prod.mk.eta])).1
        have hq1 : q.1 ∈ ks := ((hmem q.1 q.2).mp (by rwa [Prod.mk.eta])).1
        have heq : p.1 = q.1 := hall p.1 hp1 q.1 hq1
        rw [hfd] at hnd
        simp only [List.map_cons, List.nodup_cons, List.mem_cons] at hnd
        exact hnd.1 (Or.inl heq)

/-! ### Lemmas about the Dataset Assembler -/

/-- On a normal return, the assembler passes the given candidate ids and labels
through unchanged into the dataset (only casting them to tensors). -/
theorem make_q_and_c_dataset_ok {enc : String → List Nat} {maxLen : Nat}
    {queries : List String} {candidate_ids : List (List Nat)}
    {candidate_labels : Option (List (List Nat))} {verbose : Bool} {ds : TensorDataset}
    (h : make_q_and_c_dataset enc maxLen queries candidate_ids candidate_labels verbose
        = .ok ds) :
    ∃ ls, candidate_labels = some ls ∧
      ds = ⟨(encode_string_inputs enc maxLen queries).1,
            (encode_string_inputs enc maxLen queries).2, candidate_ids, ls⟩ := by
  unfold make_q_and_c_dataset at h
  by_cases h1 : queries.length ≠ candidate_ids.length
  · rw [if_pos h1] at h; exact absurd h (by simp)
  · rw [if_neg h1] at h
    by_cases h2 : 1 < (nbCandidatesFd candidate_ids).length
    · rw [if_pos h2] at h; exact absurd h (by simp)
    · rw [if_neg h2] at h
      cases h3 : badLabel candidate_labels with
      | some v => rw [h3] at h; exact absurd h (by simp)
      | none =>
        rw [h3] at h
        cases h4 : (if verbose then verboseCheck queries candidate_labels else none) with
        | some e => rw [h4] at h; exact absurd h (by simp)
        | none =>
          rw [h4] at h
          cases candidate_labels with
          | none => exact absurd h (by simp)
          | some ls =>
            simp only at h
            by_cases h5 : 1 < (fdOf (ls.map List.length)).length
            · rw [if_pos h5] at h; exact absurd h (by simp)
            · rw [if_neg h5] at h
              by_cases h6 : ls.length ≠ queries.length
              · rw [if_pos h6] at h; exact absurd h (by simp)
              · rw [if_neg h6] at h
                rw [Except.ok.injEq] at h
                exact ⟨ls, rfl, h.symm⟩

/-- The verbose example-logging loop can only raise IndexError or TypeError. -/
theorem verboseLoop_cases (queries : List String) (labels : Option (List (List Nat))) :
    ∀ steps i, verboseLoop queries labels steps i = none ∨
      verboseLoop queries labels steps i = some .indexError ∨
      verboseLoop queries labels steps i = some .typeError := by
  intro steps
  induction steps with
  | zero => intro i; left; rfl
  | succ n ih =>
    intro i
    simp only [verboseLoop]
    by_cases h1 : queries.length ≤ i
    · rw [if_pos h1]; right; left; rfl
    · rw [if_neg h1]
      cases labels with
      | none => right; right; rfl
      | some ls =>
        simp only
        by_cases h2 : ls.length ≤ i
        · rw [if_pos h2]; right; left; rfl
        · rw [if_neg h2]; exact ih (i + 1)

/-- C5: with the entry assert satisfied, `make_q_and_c_dataset` raises
ShapeMismatch if and only if two queries have candidate-id lists of different
lengths; and the error payload lists each distinct length found exactly once,
paired with the number of queries having that length. -/
theorem c5_shape_mismatch_iff (enc : String → List Nat) (maxLen : Nat)
    (queries : List String) (candidate_ids : List (List Nat))
    (candidate_labels : Option (List (List Nat))) (verbose : Bool)
    (hlen : queries.length = candidate_ids.length) :
    ((∃ fd, make_q_and_c_dataset enc maxLen queries candidate_ids candidate_labels verbose
        = .error (.shapeMismatch fd)) ↔
      ∃ a ∈ candidate_ids, ∃ b ∈ candidate_ids, a.length ≠ b.length) ∧
    (∀ fd, make_q_and_c_dataset enc maxLen queries candidate_ids candidate_labels verbose
        = .error (.shapeMismatch fd) →
      ((fd.map Prod.fst).Nodup ∧
        ∀ k v, (k, v) ∈ fd ↔
          ((∃ c ∈ candidate_ids, c.length = k) ∧
            v = (candidate_ids.map List.length).count k))) := by
  have hne : ¬ queries.length ≠ candidate_ids.length := by simp [hlen]
  by_cases hsh : 1 < (nbCandidatesFd candidate_ids).length
  · have hres : make_q_and_c_dataset enc maxLen queries candidate_ids candidate_labels verbose
        = .error (.shapeMismatch (nbCandidatesFd candidate_ids)) := by
      unfold make_q_and_c_dataset
      rw [if_neg hne, if_pos hsh]
    refine ⟨⟨fun _ => ?_, fun _ => ⟨_, hres⟩⟩, ?_⟩
    · by_contra hc
      push_neg at hc
      have hle : (fdOf (candidate_ids.map List.length)).length ≤ 1 := by
        rw [fdOf_length_le_one_iff]
        intro x hx y hy
        rw [List.mem_map] at hx hy
        obtain ⟨a, ha, rfl⟩ := hx
        obtain ⟨b, hb, rfl⟩ := hy
        exact hc a ha b hb
      rw [nbCandidatesFd] at hsh
      omega
    · intro fd hfd
      rw [hres] at hfd
      simp only [Except.error.injEq, DataError.shapeMismatch.injEq] at hfd
      subst hfd
      obtain ⟨hmem, hnd⟩ := fdOf_inv (candidate_ids.map List.length)
      refine ⟨hnd, ?_⟩
      intro k v
      rw [nbCandidatesFd, hmem k v]
      constructor
      · rintro ⟨hk, hv⟩
        rw [List.mem_map] at hk
        obtain ⟨c, hc, hck⟩ := hk
        exact ⟨⟨c, hc, hck⟩, hv⟩
      · rintro ⟨⟨c, hc, hck⟩, hv⟩
        exact ⟨List.mem_map.mpr ⟨c, hc, hck⟩, hv⟩
  · have hno : ∀ fd, make_q_and_c_dataset enc maxLen queries candidate_ids candidate_labels
        verbose ≠ .error (.shapeMismatch fd) := by
      intro fd
      unfold make_q_and_c_dataset
      rw [if_neg hne, if_neg hsh]
      cases h3 : badLabel candidate_labels with
      | some v => simp
      | none =>
        cases hv : (if verbose then verboseCheck queries candidate_labels else none) with
        | some e =>
          have he : e = .indexError ∨ e = .typeError := by
            by_cases hvb : verbose
            · rw [if_pos hvb] at hv
              rcases verboseLoop_cases queries candidate_labels 5 0 with h | h | h
              · rw [verboseCheck, h] at hv; exact absurd hv (by simp)
              · rw [verboseCheck, h] at hv
                rw [Option.some.injEq] at hv
                exact Or.inl hv.symm
              · rw [verboseCheck, h] at hv
                rw [Option.some.injEq] at hv
                exact Or.inr hv.symm
            · rw [if_neg hvb] at hv; exact absurd hv (by simp)
          rcases he with rfl | rfl <;> simp
        | none =>
          cases candidate_labels with
          | none => simp
          | some ls =>
            simp only
            by_cases h5 : 1 < (fdOf (ls.map List.length)).length
            · rw [if_pos h5]; simp
            · rw [if_neg h5]
              by_cases h6 : ls.length ≠ queries.length
              · rw [if_pos h6]; simp
              · rw [if_neg h6]; simp
    refine ⟨⟨?_, ?_⟩, ?_⟩
    · rintro ⟨fd, hfd⟩
      exact absurd hfd (hno fd)
    · rintro ⟨a, ha, b, hb, hab⟩
      exfalso
      have hle : (fdOf (candidate_ids.map List.length)).length ≤ 1 := by
        rw [nbCandidatesFd] at hsh
        omega
      have hall := (fdOf_length_le_one_iff (candidate_ids.map List.length)).mp hle
      exact hab (hall _ (List.mem_map_of_mem _ ha) _ (List.mem_map_of_mem _ hb))
    · intro fd hfd
      exact absurd hfd (hno fd)

theorem c5_shape_mismatch_iff_witness :
    ((∃ fd, make_q_and_c_dataset (fun _ => [7]) 3 ["a", "b"] [[0], [1, 2]]
        (some [[1], [0, 1]]) false = .error (.shapeMismatch fd)) ↔
      ∃ a ∈ [[0], [1, 2]], ∃ b ∈ [[0], [1, 2]], List.length a ≠ List.length b) ∧
    (∀ fd, make_q_and_c_dataset (fun _ => [7]) 3 ["a", "b"] [[0], [1, 2]]
        (some [[1], [0, 1]]) false = .error (.shapeMismatch fd) →
      ((fd.map Prod.fst).Nodup ∧
        ∀ k v, (k, v) ∈ fd ↔
          ((∃ c ∈ [[0], [1, 2]], List.length c = k) ∧
            v = (List.map List.length [[0], [1, 2]]).count k))) :=
  c5_shape_mismatch_iff (fun _ => [7]) 3 ["a", "b"] [[0], [1, 2]] (some [[1], [0, 1]])
    false rfl

/-- C6: with the assert and the shape check satisfied, a supplied label outside
{0,1} makes `make_q_and_c_dataset` raise InvalidLabel naming an offending
value; and when every supplied label is 0 or 1, no InvalidLabel error is ever
raised. -/
theorem c6_invalid_label (enc : String → List Nat) (maxLen : Nat) (queries : List String)
    (candidate_ids : List (List Nat)) (ls : List (List Nat)) (verbose : Bool)
    (hlen : queries.length = candidate_ids.length)
    (hshape : ¬ 1 < (nbCandidatesFd candidate_ids).length) :
    ((∃ v ∈ ls.flatten, v ≠ 0 ∧ v ≠ 1) →
      ∃ v, make_q_and_c_dataset enc maxLen queries candidate_ids (some ls) verbose
          = .error (.invalidLabel v) ∧ v ∈ ls.flatten ∧ v ≠ 0 ∧ v ≠ 1) ∧
    ((∀ v ∈ ls.flatten, v = 0 ∨ v = 1) →
      ∀ v, make_q_and_c_dataset enc maxLen queries candidate_ids (some ls) verbose
          ≠ .error (.invalidLabel v)) := by
  have hne : ¬ queries.length ≠ candidate_ids.length := by simp [hlen]
  constructor
  · rintro ⟨v0, hv0mem, hv00, hv01⟩
    have hlsne : ls ≠ [] := by
      rw [List.mem_flatten] at hv0mem
      obtain ⟨l, hl, -⟩ := hv0mem
      exact List.ne_nil_of_mem hl
    have htruthy : labelsTruthy (some ls) = true := by
      unfold labelsTruthy
      simp [hlsne]
    have hsome : ((some ls : Option (List (List Nat))).getD []).flatten.find?
        (fun v => !(v == 1) && !(v == 0)) |>.isSome := by
      rw [List.find?_isSome]
      exact ⟨v0, by simpa using hv0mem, by simp [hv00, hv01]⟩
    obtain ⟨w, hw⟩ := Option.isSome_iff_exists.mp hsome
    have hbad : badLabel (some ls) = some w := by
      unfold badLabel
      rw [if_pos htruthy]
      exact hw
    have hwp := List.find?_some hw
    have hwmem := List.mem_of_find?_eq_some hw
    simp only [Bool.and_eq_true, Bool.not_eq_eq_eq_not, Bool.not_true, beq_eq_false_iff_ne,
      ne_eq] at hwp
    refine ⟨w, ?_, by simpa using hwmem, hwp.2, hwp.1⟩
    unfold make_q_and_c_dataset
    rw [if_neg hne, if_neg hshape, hbad]
  · intro hall v
    have hbad : badLabel (some ls) = none := by
      unfold badLabel
      by_cases htruthy : labelsTruthy (some ls) = true
      · rw [if_pos htruthy]
        rw [List.find?_eq_none]
        intro x hx
        rcases hall x (by simpa using hx) with rfl | rfl <;> simp
      · rw [if_neg htruthy]
    unfold make_q_and_c_dataset
    rw [if_neg hne, if_neg hshape, hbad]
    cases hv : (if verbose then verboseCheck queries (some ls) else none) with
    | some e =>
      have he : e = .indexError ∨ e = .typeError := by
        by_cases hvb : verbose
        · rw [if_pos hvb] at hv
          rcases verboseLoop_cases queries (some ls) 5 0 with h | h | h
          · rw [verboseCheck, h] at hv; exact absurd hv (by simp)
          · rw [verboseCheck, h] at hv
            rw [Option.some.injEq] at hv
            exact Or.inl hv.symm
          · rw [verboseCheck, h] at hv
            rw [Option.some.injEq] at hv
            exact Or.inr hv.symm
        · rw [if_neg hvb] at hv; exact absurd hv (by simp)
      rcases he with rfl | rfl <;> simp
    | none =>
      simp only
      by_cases h5 : 1 < (fdOf (ls.map List.length)).length
      · rw [if_pos h5]; simp
      · rw [if_neg h5]
        by_cases h6 : ls.length ≠ queries.length
        · rw [if_pos h6]; simp
        · rw [if_neg h6]; simp

theorem c6_invalid_label_witness :
    ((∃ v ∈ List.flatten [[1], [2]], v ≠ 0 ∧ v ≠ 1) →
      ∃ v, make_q_and_c_dataset (fun _ => [7]) 3 ["a", "b"] [[0], [1]]
          (some [[1], [2]]) false = .error (.invalidLabel v) ∧
        v ∈ List.flatten [[1], [2]] ∧ v ≠ 0 ∧ v ≠ 1) ∧
    ((∀ v ∈ List.flatten [[1], [2]], v = 0 ∨ v = 1) →
      ∀ v, make_q_and_c_dataset (fun _ => [7]) 3 ["a", "b"] [[0], [1]]
          (some [[1], [2]]) false ≠ .error (.invalidLabel v)) :=
  c6_invalid_label (fun _ => [7]) 3 ["a", "b"] [[0], [1]] [[1], [2]] false rfl
    (by decide)

/-- C3 (code-level evidence): the verbose example-logging loop of
`make_q_and_c_dataset` iterates `for i in range(5)` unconditionally, so an
input with a single query succeeds with `verbose=False` but raises IndexError
(at `queries[1]`) with `verbose=True` — the observational logging path throws
and so verbose mode is not effect-free on inputs with fewer than 5 queries. -/
theorem c3_verbose_logging_raises :
    make_q_and_c_dataset (fun _ => [7]) 3 ["a"] [[0]] (some [[1]]) false
      = .ok ⟨[[7, 0, 0]], [1], [[0]], [[1]]⟩ ∧
    make_q_and_c_dataset (fun _ => [7]) 3 ["a"] [[0]] (some [[1]]) true
      = .error .indexError :=
  ⟨rfl, rfl⟩

/-! ### Lemmas about the dev-set construction -/

theorem foldl_set_length (g : List Nat) :
    ∀ y : List Nat, (g.foldl (fun y c => y.set c 1) y).length = y.length := by
  induction g with
  | nil => intro y; rfl
  | cons a g' ih =>
    intro y
    rw [List.foldl_cons, ih]
    simp

/-- The value at an in-range position after the `y[c] = 1` assignment loop:
1 when the position is one of the assigned gold ids, the initial value
otherwise. -/
theorem foldl_set_getElem? (g : List Nat) :
    ∀ (y : List Nat) (c : Nat), c < y.length →
      (g.foldl (fun y c => y.set c 1) y)[c]? = if c ∈ g then some 1 else y[c]? := by
  induction g with
  | nil => intro y c _; simp
  | cons a g' ih =>
    intro y c hc
    rw [List.foldl_cons, ih (y.set a 1) c (by simpa using hc)]
    by_cases hcg : c ∈ g'
    · simp [hcg]
    · by_cases hca : c = a
      · subst hca
        rw [if_neg hcg, if_pos (List.mem_cons_self c g')]
        exact List.getElem?_set_eq_of_lt 1 hc
      · rw [if_neg hcg, if_neg (by simp [hca, hcg])]
        exact List.getElem?_set_ne (fun h => hca h.symm)

theorem devLabels_length (nb : Nat) (g : List Nat) : (devLabels nb g).length = nb := by
  unfold devLabels
  rw [foldl_set_length]
  simp

theorem devLabels_getD (nb : Nat) (g : List Nat) (c : Nat) (hc : c < nb) :
    (devLabels nb g).getD c 2 = if c ∈ g then 1 else 0 := by
  rw [List.getD_eq_getElem?_getD]
  unfold devLabels
  rw [foldl_set_getElem? g _ c (by simpa using hc)]
  by_cases hcg : c ∈ g
  · simp [hcg]
  · rw [if_neg hcg, if_neg hcg]
    simp [List.getElem?_replicate, hc]

/-- C4: for every query of the dev split, `make_dev_set` produces the full
candidate-id range `[0, nb_candidates)` (each candidate exactly once) and a
label sequence of length `nb_candidates` with 1 exactly at the gold ids. -/
theorem c4_dev_set (enc : String → List Nat) (maxLen : Nat) (queries : List String)
    (candidates : List String) (gold : List (List Nat)) (ds : TensorDataset) (i c : Nat)
    (h : make_dev_set enc maxLen queries candidates gold = .ok ds)
    (hi : i < queries.length) (hc : c < candidates.length) :
    ds.candidate_ids.getD i [] = List.range candidates.length ∧
    (ds.candidate_ids.getD i []).count c = 1 ∧
    (ds.candidate_labels.getD i []).length = candidates.length ∧
    (ds.candidate_labels.getD i []).getD c 2 = if c ∈ gold.getD i [] then 1 else 0 := by
  unfold make_dev_set at h
  by_cases h1 : gold.length < queries.length
  · rw [if_pos h1] at h; exact absurd h (by simp)
  · rw [if_neg h1] at h
    by_cases h2 : (gold.take queries.length).flatten.any
        (fun c => candidates.length ≤ c) = true
    · rw [if_pos h2] at h; exact absurd h (by simp)
    · rw [if_neg h2] at h
      obtain ⟨ls, hls, hds⟩ := make_q_and_c_dataset_ok h
      rw [Option.some.injEq] at hls
      subst hds
      simp only
      have hcid : (((List.range queries.length).map
          fun _ => List.range candidates.length).getD i []) =
          List.range candidates.length := by
        rw [List.getD_eq_getElem _ _ (by simpa using hi)]
        simp
      have hlab : ls.getD i [] = devLabels candidates.length (gold.getD i []) := by
        rw [← hls]
        rw [List.getD_eq_getElem _ _ (by simpa using hi)]
        simp
      refine ⟨hcid, ?_, ?_, ?_⟩
      · rw [hcid]
        exact List.count_eq_one_of_mem (List.nodup_range _) (List.mem_range.mpr hc)
      · rw [hlab, devLabels_length]
      · rw [hlab, devLabels_getD _ _ _ hc]

theorem c4_dev_set_witness :
    (TensorDataset.mk [[7, 0, 0]] [1] [[0, 1, 2]] [[1, 0, 1]]).candidate_ids.getD 0 []
        = List.range 3 ∧
    ((TensorDataset.mk [[7, 0, 0]] [1] [[0, 1, 2]] [[1, 0, 1]]).candidate_ids.getD 0 []).count 1
        = 1 ∧
    ((TensorDataset.mk [[7, 0, 0]] [1] [[0, 1, 2]] [[1, 0, 1]]).candidate_labels.getD 0 []).length
        = 3 ∧
    ((TensorDataset.mk [[7, 0, 0]] [1] [[0, 1, 2]] [[1, 0, 1]]).candidate_labels.getD 0 []).getD 1 2
        = if 1 ∈ ([[2, 0]] : List (List Nat)).getD 0 [] then 1 else 0 :=
  c4_dev_set (fun _ => [7]) 3 ["a"] ["x", "y", "z"] [[2, 0]]
    (TensorDataset.mk [[7, 0, 0]] [1] [[0, 1, 2]] [[1, 0, 1]]) 0 1 (by rfl)
    (by decide) (by decide)

/-- C7: for every example `i` (with its true token count within the configured
maximum, as the pipeline guarantees), the attention mask row equals 1 at each
of the first `token_counts[i]` positions and 0 at every later position, its
total length is `max_seq_length`, and there is one row per example. -/
theorem c7_attention_mask (opt : EncOpt) (token_ids : List (List Nat)) (nb_tokens : List Nat)
    (lang_id : Nat) (i j : Nat) (hi : i < token_ids.length)
    (ht : nb_tokens.getD i 0 ≤ opt.max_seq_length) (hj : j < opt.max_seq_length) :
    ((get_missing_inputs opt token_ids nb_tokens lang_id).attention_mask.getD i []).length
        = opt.max_seq_length ∧
    ((get_missing_inputs opt token_ids nb_tokens lang_id).attention_mask.getD i []).getD j 2
        = (if j < nb_tokens.getD i 0 then 1 else 0) ∧
    (get_missing_inputs opt token_ids nb_tokens lang_id).attention_mask.length
        = token_ids.length := by
  unfold get_missing_inputs
  simp only
  have hrow : (((List.range token_ids.length).map fun i =>
      List.replicate (nb_tokens.getD i 0) 1 ++
        List.replicate (opt.max_seq_length - nb_tokens.getD i 0)
          (if MASK_PADDING_WITH_ZERO then 0 else 1)).getD i []) =
      List.replicate (nb_tokens.getD i 0) 1 ++
        List.replicate (opt.max_seq_length - nb_tokens.getD i 0) 0 := by
    rw [List.getD_eq_getElem _ _ (by simpa using hi)]
    simp [MASK_PADDING_WITH_ZERO]
  rw [hrow]
  refine ⟨?_, ?_, by simp⟩
  · rw [List.length_append, List.length_replicate, List.length_replicate]
    omega
  · by_cases hjt : j < nb_tokens.getD i 0
    · rw [if_pos hjt, List.getD_eq_getElem?_getD, List.getElem?_append,
        List.length_replicate, if_pos hjt, List.getElem?_replicate, if_pos hjt]
      rfl
    · rw [if_neg hjt, List.getD_eq_getElem?_getD, List.getElem?_append,
        List.length_replicate, if_neg hjt, List.getElem?_replicate, if_pos (by omega)]
      rfl

theorem c7_attention_mask_witness :
    ((get_missing_inputs (EncOpt.mk "bert" 3) [[5, 5, 0]] [2] 0).attention_mask.getD 0
        []).length = 3 ∧
    ((get_missing_inputs (EncOpt.mk "bert" 3) [[5, 5, 0]] [2] 0).attention_mask.getD 0
        []).getD 2 2 = (if 2 < ([2] : List Nat).getD 0 0 then 1 else 0) ∧
    (get_missing_inputs (EncOpt.mk "bert" 3) [[5, 5, 0]] [2] 0).attention_mask.length = 1 :=
  c7_attention_mask (EncOpt.mk "bert" 3) [[5, 5, 0]] [2] 0 0 2 (by decide) (by decide)
    (by decide)

/-! ### Lemmas about the train-set construction -/

theorem getD_map_of_lt {α β : Type} (l : List α) (f : α → β) (i : Nat) (d : β) (d0 : α)
    (h : i < l.length) : (l.map f).getD i d = f (l.getD i d0) := by
  rw [List.getD_eq_getElem _ _ (by simpa using h), List.getD_eq_getElem _ _ h]
  simp

theorem truncGold_length (m : Nat) (l : List Nat) :
    (truncGold m l).length = min l.length m := by
  unfold truncGold
  by_cases h : m < l.length
  · rw [if_pos h, List.length_take]
    omega
  · rw [if_neg h]
    omega

theorem goldTruncOf_length (maxPosRatio : ℚ) (B : Nat) (shuffleG : List Nat → List Nat)
    (gold : List (List Nat)) : (goldTruncOf maxPosRatio B shuffleG gold).length = gold.length := by
  unfold goldTruncOf
  simp

theorem goldTruncOf_getD (maxPosRatio : ℚ) (B : Nat) (shuffleG : List Nat → List Nat)
    (gold : List (List Nat)) (i : Nat) (hi : i < gold.length) :
    (goldTruncOf maxPosRatio B shuffleG gold).getD i []
      = truncGold (maxPosOf maxPosRatio B) (shuffleG (gold.getD i [])) := by
  unfold goldTruncOf
  rw [getD_map_of_lt _ _ _ _ [] (by simpa using hi)]
  rw [getD_map_of_lt _ _ _ _ [] hi]

theorem maxPosOf_le (maxPosRatio : ℚ) (B : Nat) (h1 : maxPosRatio ≤ 1) :
    maxPosOf maxPosRatio B ≤ B := by
  unfold maxPosOf
  rw [Int.toNat_le]
  calc ⌊maxPosRatio * (B : ℚ)⌋ ≤ ⌊(B : ℚ)⌋ :=
        Int.floor_le_floor (mul_le_of_le_one_left (by positivity) h1)
    _ = (B : ℤ) := Int.floor_natCast B

theorem trainPairs_getD (shuffleP : List (Nat × Nat) → List (Nat × Nat)) (nq : Nat)
    (goldTrunc negs : List (List Nat)) (i : Nat) (hi : i < nq) :
    (trainPairs shuffleP nq goldTrunc negs).getD i []
      = shuffleP (((goldTrunc.getD i []).map fun x => (x, 1)) ++
          ((negs.getD i []).map fun x => (x, 0))) := by
  unfold trainPairs
  rw [List.getD_eq_getElem _ _ (by simpa using hi)]
  simp

/-- Per-query negative counts for a successful `sample_negative_examples`. -/
theorem sample_negative_examples_lengths (cands : List Nat) (posLists : List (List Nat))
    (B : Nat) (buffers : Nat → Nat → Nat) (fuel : Nat) (negs : List (List Nat))
    (h : sample_negative_examples cands posLists B buffers fuel = some negs) :
    List.Forall₂ (fun neg pos => List.length neg = B - List.length pos) negs posLists := by
  unfold sample_negative_examples at h
  split at h
  · exact absurd h (by simp)
  · exact sampleNegLoop_lengths cands B buffers fuel posLists 0 0 negs h

theorem forall₂_getD {R : List Nat → List Nat → Prop} {l1 l2 : List (List Nat)}
    (h : List.Forall₂ R l1 l2) (i : Nat) (hi : i < l2.length) :
    R (l1.getD i []) (l2.getD i []) := by
  obtain ⟨hlen, hget⟩ := List.forall₂_iff_get.mp h
  have hi1 : i < l1.length := by omega
  rw [List.getD_eq_getElem _ _ hi1, List.getD_eq_getElem _ _ hi]
  have := hget i hi1 hi
  simpa using this

/-- Inversion of a successful `make_train_set` call. -/
theorem make_train_set_ok {enc : String → List Nat} {maxLen B : Nat} {maxPosRatio : ℚ}
    {shuffleG : List Nat → List Nat} {shuffleP : List (Nat × Nat) → List (Nat × Nat)}
    {queries : List String} {candidates : List String} {gold : List (List Nat)}
    {buffers : Nat → Nat → Nat} {fuel : Nat} {verbose : Bool} {ds : TensorDataset}
    {finalGold : List (List Nat)}
    (h : make_train_set enc maxLen B maxPosRatio shuffleG shuffleP queries candidates gold
        buffers fuel verbose = .ok (ds, finalGold)) :
    0 < maxPosRatio ∧ maxPosRatio ≤ 1 ∧
    finalGold = goldTruncOf maxPosRatio B shuffleG gold ∧
    ∃ negs, sample_negative_examples (List.range candidates.length)
        (goldTruncOf maxPosRatio B shuffleG gold) B buffers fuel = some negs ∧
      queries.length ≤ (goldTruncOf maxPosRatio B shuffleG gold).length ∧
      ds.candidate_ids = (trainPairs shuffleP queries.length
        (goldTruncOf maxPosRatio B shuffleG gold) negs).map (List.map Prod.fst) ∧
      ds.candidate_labels = (trainPairs shuffleP queries.length
        (goldTruncOf maxPosRatio B shuffleG gold) negs).map (List.map Prod.snd) := by
  unfold make_train_set at h
  by_cases hr : maxPosRatio ≤ 0 ∨ 1 < maxPosRatio
  · rw [if_pos hr] at h; exact absurd h (by simp)
  · rw [if_neg hr] at h
    push_neg at hr
    cases hs : sample_negative_examples (List.range candidates.length)
        (goldTruncOf maxPosRatio B shuffleG gold) B buffers fuel with
    | none => rw [hs] at h; exact absurd h (by simp)
    | some negs =>
      rw [hs] at h
      simp only at h
      by_cases hgl : (goldTruncOf maxPosRatio B shuffleG gold).length < queries.length
      · rw [if_pos hgl] at h; exact absurd h (by simp)
      · rw [if_neg hgl] at h
        by_cases hemp : (trainPairs shuffleP queries.length
            (goldTruncOf maxPosRatio B shuffleG gold) negs).any List.isEmpty
        · rw [if_pos hemp] at h; exact absurd h (by simp)
        · rw [if_neg hemp] at h
          cases hq : make_q_and_c_dataset enc maxLen queries
              ((trainPairs shuffleP queries.length
                (goldTruncOf maxPosRatio B shuffleG gold) negs).map (List.map Prod.fst))
              (some ((trainPairs shuffleP queries.length
                (goldTruncOf maxPosRatio B shuffleG gold) negs).map (List.map Prod.snd)))
              verbose with
          | error e => rw [hq] at h; exact absurd h (by simp)
          | ok ds' =>
            rw [hq] at h
            simp only [Except.ok.injEq, Prod.mk.injEq] at h
            obtain ⟨rfl, rfl⟩ := h
            obtain ⟨ls, hls, hds⟩ := make_q_and_c_dataset_ok hq
            rw [Option.some.injEq] at hls
            refine ⟨hr.1, hr.2, rfl, negs, rfl, by omega, ?_, ?_⟩
            · rw [hds]
            · rw [hds]
              simp only
              rw [← hls]

/-- C2: for a successful `make_train_set` with budget `B` and ratio `r`, every
assembled example set of every query has exactly `B` entries, of which exactly
`min(P, floor(r*B))` carry label 1 (`P` the positive count of the query — so a query
with `P > floor(r*B)` keeps exactly `floor(r*B)` positives) and the remaining
`B - min(P, floor(r*B))` carry label 0. -/
theorem c2_train_counts (enc : String → List Nat) (maxLen B : Nat) (maxPosRatio : ℚ)
    (shuffleG : List Nat → List Nat) (shuffleP : List (Nat × Nat) → List (Nat × Nat))
    (queries : List String) (candidates : List String) (gold : List (List Nat))
    (buffers : Nat → Nat → Nat) (fuel : Nat) (verbose : Bool) (ds : TensorDataset)
    (finalGold : List (List Nat)) (i : Nat)
    (hG : ∀ l, (shuffleG l).Perm l) (hP : ∀ l, (shuffleP l).Perm l)
    (hlen : gold.length = queries.length) (hi : i < queries.length)
    (h : make_train_set enc maxLen B maxPosRatio shuffleG shuffleP queries candidates gold
        buffers fuel verbose = .ok (ds, finalGold)) :
    (ds.candidate_ids.getD i []).length = B ∧
    (ds.candidate_labels.getD i []).length = B ∧
    (ds.candidate_labels.getD i []).count 1
        = min (gold.getD i []).length (maxPosOf maxPosRatio B) ∧
    (ds.candidate_labels.getD i []).count 0
        = B - min (gold.getD i []).length (maxPosOf maxPosRatio B) := by
  obtain ⟨hr0, hr1, hfg, negs, hs, hql, hcids, hlabs⟩ := make_train_set_ok h
  have higold : i < gold.length := by omega
  have hGi : (goldTruncOf maxPosRatio B shuffleG gold).getD i []
      = truncGold (maxPosOf maxPosRatio B) (shuffleG (gold.getD i [])) :=
    goldTruncOf_getD _ _ _ _ _ higold
  have hkept : ((goldTruncOf maxPosRatio B shuffleG gold).getD i []).length
      = min (gold.getD i []).length (maxPosOf maxPosRatio B) := by
    rw [hGi, truncGold_length, (hG (gold.getD i [])).length_eq]
  have hnegL : (negs.getD i []).length
      = B - ((goldTruncOf maxPosRatio B shuffleG gold).getD i []).length :=
    forall₂_getD (sample_negative_examples_lengths _ _ _ _ _ _ hs) i
      (by rw [goldTruncOf_length]; omega)
  have hpairs : (trainPairs shuffleP queries.length
      (goldTruncOf maxPosRatio B shuffleG gold) negs).getD i []
      = shuffleP ((((goldTruncOf maxPosRatio B shuffleG gold).getD i []).map
          fun x => (x, 1)) ++ ((negs.getD i []).map fun x => (x, 0))) :=
    trainPairs_getD _ _ _ _ _ hi
  have hmaxle : maxPosOf maxPosRatio B ≤ B := maxPosOf_le _ _ hr1
  have htplen : i < (trainPairs shuffleP queries.length
      (goldTruncOf maxPosRatio B shuffleG gold) negs).length := by
    unfold trainPairs
    simpa using hi
  have hlabrow : ds.candidate_labels.getD i []
      = ((trainPairs shuffleP queries.length (goldTruncOf maxPosRatio B shuffleG gold)
          negs).getD i []).map Prod.snd := by
    rw [hlabs, getD_map_of_lt _ _ _ _ [] htplen]
  have hcidrow : ds.candidate_ids.getD i []
      = ((trainPairs shuffleP queries.length (goldTruncOf maxPosRatio B shuffleG gold)
          negs).getD i []).map Prod.fst := by
    rw [hcids, getD_map_of_lt _ _ _ _ [] htplen]
  have hperm : (((trainPairs shuffleP queries.length
      (goldTruncOf maxPosRatio B shuffleG gold) negs).getD i []).map Prod.snd).Perm
      (List.replicate (((goldTruncOf maxPosRatio B shuffleG gold).getD i []).length) 1 ++
        List.replicate ((negs.getD i []).length) 0) := by
    rw [hpairs]
    refine ((hP _).map Prod.snd).trans ?_
    rw [List.map_append, List.map_map, List.map_map]
    have e1 : (Prod.snd ∘ fun x : Nat => (x, 1)) = fun _ : Nat => (1 : Nat) := rfl
    have e2 : (Prod.snd ∘ fun x : Nat => (x, 0)) = fun _ : Nat => (0 : Nat) := rfl
    rw [e1, e2, List.map_const', List.map_const']
  refine ⟨?_, ?_, ?_, ?_⟩
  · rw [hcidrow, List.length_map, hpairs, (hP _).length_eq, List.length_append,
      List.length_map, List.length_map]
    omega
  · rw [hlabrow, hperm.length_eq, List.length_append, List.length_replicate,
      List.length_replicate]
    omega
  · rw [hlabrow, hperm.count_eq, List.count_append, List.count_replicate,
      List.count_replicate]
    rw [if_pos (show ((1 : Nat) == 1) = true from rfl),
      if_neg (show ¬ ((0 : Nat) == 1) = true from by decide)]
    omega
  · rw [hlabrow, hperm.count_eq, List.count_append, List.count_replicate,
      List.count_replicate]
    rw [if_neg (show ¬ ((1 : Nat) == 0) = true from by decide),
      if_pos (show ((0 : Nat) == 0) = true from rfl)]
    omega

/-- Concrete evaluation of `make_train_set` used by the train-set witnesses. -/
theorem make_train_set_witness_input :
    make_train_set (fun _ => [7]) 3 2 (1/2 : ℚ) id id ["a"] ["c0", "c1", "c2", "c3", "c4"]
        [[3, 4]] (fun _ _ => 0) 10 false
      = .ok (TensorDataset.mk [[7, 0, 0]] [1] [[3, 0]] [[1, 0]], [[3]]) := by
  unfold make_train_set
  rw [if_neg (by norm_num)]
  have h2 : maxPosOf (1/2 : ℚ) 2 = 1 := by
    unfold maxPosOf
    rw [show (1/2 : ℚ) * ((2 : Nat) : ℚ) = 1 by push_cast; norm_num]
    norm_num
  unfold goldTruncOf
  rw [h2]
  rfl

theorem c2_train_counts_witness :
    ((TensorDataset.mk [[7, 0, 0]] [1] [[3, 0]] [[1, 0]]).candidate_ids.getD 0 []).length
        = 2 ∧
    ((TensorDataset.mk [[7, 0, 0]] [1] [[3, 0]] [[1, 0]]).candidate_labels.getD 0 []).length
        = 2 ∧
    ((TensorDataset.mk [[7, 0, 0]] [1] [[3, 0]] [[1, 0]]).candidate_labels.getD 0 []).count 1
        = min (([[3, 4]] : List (List Nat)).getD 0 []).length (maxPosOf (1/2 : ℚ) 2) ∧
    ((TensorDataset.mk [[7, 0, 0]] [1] [[3, 0]] [[1, 0]]).candidate_labels.getD 0 []).count 0
        = 2 - min (([[3, 4]] : List (List Nat)).getD 0 []).length (maxPosOf (1/2 : ℚ) 2) :=
  c2_train_counts (fun _ => [7]) 3 2 (1/2 : ℚ) id id ["a"] ["c0", "c1", "c2", "c3", "c4"]
    [[3, 4]] (fun _ _ => 0) 10 false (TensorDataset.mk [[7, 0, 0]] [1] [[3, 0]] [[1, 0]])
    [[3]] 0 (fun l => List.Perm.refl l) (fun l => List.Perm.refl l) rfl (by decide)
    make_train_set_witness_input

/-- C9: `make_train_set` mutates `train_data["gold_hypernym_candidate_ids"]`:
after a successful call, entry `i` of the final gold list is a truncation
(to `max_pos`, applied only when the list was longer) of a permutation of the
original list of the caller — so its length is `min(P, max_pos)` and its elements
are drawn from the original list. A later call on the same dict therefore
starts from these truncated lists. -/
theorem c9_gold_mutation (enc : String → List Nat) (maxLen B : Nat) (maxPosRatio : ℚ)
    (shuffleG : List Nat → List Nat) (shuffleP : List (Nat × Nat) → List (Nat × Nat))
    (queries : List String) (candidates : List String) (gold : List (List Nat))
    (buffers : Nat → Nat → Nat) (fuel : Nat) (verbose : Bool) (ds : TensorDataset)
    (finalGold : List (List Nat)) (i : Nat)
    (hG : ∀ l, (shuffleG l).Perm l) (hi : i < gold.length)
    (h : make_train_set enc maxLen B maxPosRatio shuffleG shuffleP queries candidates gold
        buffers fuel verbose = .ok (ds, finalGold)) :
    finalGold.length = gold.length ∧
    (∃ sh : List Nat, sh.Perm (gold.getD i []) ∧
      finalGold.getD i [] = truncGold (maxPosOf maxPosRatio B) sh) ∧
    (finalGold.getD i []).length
        = min (gold.getD i []).length (maxPosOf maxPosRatio B) ∧
    ∀ x ∈ finalGold.getD i [], x ∈ gold.getD i [] := by
  obtain ⟨hr0, hr1, hfg, negs, hs, hql, -, -⟩ := make_train_set_ok h
  subst hfg
  refine ⟨goldTruncOf_length _ _ _ _, ?_, ?_, ?_⟩
  · exact ⟨shuffleG (gold.getD i []), hG _, goldTruncOf_getD _ _ _ _ _ hi⟩
  · rw [goldTruncOf_getD _ _ _ _ _ hi, truncGold_length, (hG _).length_eq]
  · intro x hx
    rw [goldTruncOf_getD _ _ _ _ _ hi] at hx
    have hx' : x ∈ shuffleG (gold.getD i []) := by
      unfold truncGold at hx
      by_cases hc : maxPosOf maxPosRatio B < (shuffleG (gold.getD i [])).length
      · rw [if_pos hc] at hx
        exact List.mem_of_mem_take hx
      · rw [if_neg hc] at hx
        exact hx
    exact (hG _).mem_iff.mp hx'

theorem c9_gold_mutation_witness :
    ([[3]] : List (List Nat)).length = ([[3, 4]] : List (List Nat)).length ∧
    (∃ sh : List Nat, sh.Perm (([[3, 4]] : List (List Nat)).getD 0 []) ∧
      ([[3]] : List (List Nat)).getD 0 [] = truncGold (maxPosOf (1/2 : ℚ) 2) sh) ∧
    (([[3]] : List (List Nat)).getD 0 []).length
        = min (([[3, 4]] : List (List Nat)).getD 0 []).length (maxPosOf (1/2 : ℚ) 2) ∧
    ∀ x ∈ ([[3]] : List (List Nat)).getD 0 [], x ∈ ([[3, 4]] : List (List Nat)).getD 0 [] :=
  c9_gold_mutation (fun _ => [7]) 3 2 (1/2 : ℚ) id id ["a"] ["c0", "c1", "c2", "c3", "c4"]
    [[3, 4]] (fun _ _ => 0) 10 false (TensorDataset.mk [[7, 0, 0]] [1] [[3, 0]] [[1, 0]])
    [[3]] 0 (fun l => List.Perm.refl l) (by decide) make_train_set_witness_input

/-! ### Lemmas about the Checkpoint Retention Manager -/

theorem length_filterMap_of_isSome {α β : Type} (f : α → Option β) :
    ∀ l : List α, (∀ a ∈ l, (f a).isSome) → (l.filterMap f).length = l.length := by
  intro l
  induction l with
  | nil => intro _; rfl
  | cons a t ih =>
    intro h
    rw [List.filterMap_cons]
    cases hf : f a with
    | none =>
      have hs := h a (List.mem_cons_self a t)
      rw [hf] at hs
      exact absurd hs (by simp)
    | some b =>
      simp only
      rw [List.length_cons, ih (fun x hx => h x (List.mem_cons_of_mem a hx))]
      rfl

/-- Membership in the `ordering_and_checkpoint_path` list, characterised. -/
theorem ckptOrdering_mem {um : Bool} {mtime : String → Nat} {pref : String}
    {glob : List String} {pr : Nat × String} :
    pr ∈ ckptOrdering um mtime pref glob ↔
      pr.2 ∈ glob ∧ ckptKey um mtime pref pr.2 = some pr.1 := by
  unfold ckptOrdering
  rw [List.mem_filterMap]
  constructor
  · rintro ⟨a, ha, hfa⟩
    rw [Option.map_eq_some'] at hfa
    obtain ⟨k, hk, hpr⟩ := hfa
    rw [← hpr]
    exact ⟨ha, hk⟩
  · rintro ⟨h2, h1⟩
    refine ⟨pr.2, h2, ?_⟩
    rw [h1]
    simp

/-- C8: `rotate_checkpoints` deletes nothing when the retention limit is falsy,
non-positive, or at least the number of matching checkpoint directories;
otherwise (when every glob match carries an order key) it deletes exactly
`count - retention_limit` entries, all drawn from the glob matches, each with
an order key no larger than the key of any retained match (oldest first). In
particular, for checkpoints `ckpt-1 .. ckpt-5` with limit 3, exactly `ckpt-1`
and `ckpt-2` are selected for deletion, and with limit 0 nothing is. -/
theorem c8_rotate_checkpoints (glob : List String) (pref : String) (um : Bool)
    (mtime : String → Nat) (v : Int) :
    rotate_checkpoints none glob pref um mtime = [] ∧
    (v ≤ 0 → rotate_checkpoints (some v) glob pref um mtime = []) ∧
    ((glob.length : Int) ≤ v → rotate_checkpoints (some v) glob pref um mtime = []) ∧
    (0 < v → v < (glob.length : Int) → glob.Nodup →
      (∀ p ∈ glob, (ckptKey um mtime pref p).isSome) →
      (rotate_checkpoints (some v) glob pref um mtime).length = glob.length - v.toNat ∧
      (∀ p ∈ rotate_checkpoints (some v) glob pref um mtime, p ∈ glob) ∧
      (∀ p ∈ rotate_checkpoints (some v) glob pref um mtime, ∀ q ∈ glob,
        q ∉ rotate_checkpoints (some v) glob pref um mtime →
        ∀ kp kq, ckptKey um mtime pref p = some kp → ckptKey um mtime pref q = some kq →
          kp ≤ kq)) ∧
    rotate_checkpoints (some 3) ["ckpt-1", "ckpt-2", "ckpt-3", "ckpt-4", "ckpt-5"] "ckpt"
        false mtime = ["ckpt-1", "ckpt-2"] ∧
    rotate_checkpoints (some 0) ["ckpt-1", "ckpt-2", "ckpt-3", "ckpt-4", "ckpt-5"] "ckpt"
        false mtime = [] := by
  refine ⟨rfl, ?_, ?_, ?_, rfl, rfl⟩
  · intro h
    unfold rotate_checkpoints
    simp only
    by_cases hv : v = 0
    · rw [if_pos hv]
    · rw [if_neg hv, if_pos h]
  · intro h
    unfold rotate_checkpoints
    simp only
    by_cases hv : v = 0
    · rw [if_pos hv]
    · rw [if_neg hv]
      by_cases hv2 : v ≤ 0
      · rw [if_pos hv2]
      · rw [if_neg hv2, if_pos h]
  · intro hv0 hvlen hnd hsome
    have hrw : rotate_checkpoints (some v) glob pref um mtime
        = ((List.insertionSort ckptLe (ckptOrdering um mtime pref glob)).map Prod.snd).take
          (((List.insertionSort ckptLe (ckptOrdering um mtime pref glob)).map
            Prod.snd).length - v.toNat) := by
      unfold rotate_checkpoints
      simp only
      rw [if_neg (by omega), if_neg (by omega), if_neg (by omega)]
    have hordlen : (ckptOrdering um mtime pref glob).length = glob.length := by
      unfold ckptOrdering
      refine length_filterMap_of_isSome _ glob ?_
      intro a ha
      have hs := hsome a ha
      cases hk : ckptKey um mtime pref a with
      | none => rw [hk] at hs; exact absurd hs (by simp)
      | some k => rfl
    have hmaplen : ((List.insertionSort ckptLe (ckptOrdering um mtime pref glob)).map
        Prod.snd).length = glob.length := by
      rw [List.length_map, List.length_insertionSort, hordlen]
    refine ⟨?_, ?_, ?_⟩
    · rw [hrw, List.length_take, hmaplen]
      omega
    · intro p hp
      rw [hrw] at hp
      have hp' : p ∈ (List.insertionSort ckptLe (ckptOrdering um mtime pref glob)).map
          Prod.snd := List.mem_of_mem_take hp
      rw [List.mem_map] at hp'
      obtain ⟨pr, hpr, rfl⟩ := hp'
      rw [List.mem_insertionSort] at hpr
      exact (ckptOrdering_mem.mp hpr).1
    · intro p hp q hq hqnot kp kq hkp hkq
      rw [hrw, ← List.map_take] at hp
      rw [List.mem_map] at hp
      obtain ⟨pr, hprtake, hpr2⟩ := hp
      have hprS : pr ∈ List.insertionSort ckptLe (ckptOrdering um mtime pref glob) :=
        List.mem_of_mem_take hprtake
      have hprO := ckptOrdering_mem.mp ((List.mem_insertionSort _).mp hprS)
      rw [hpr2] at hprO
      have hkp' : pr.1 = kp := by
        rw [hprO.2] at hkp
        rw [Option.some.injEq] at hkp
        exact hkp
      have hqS : (kq, q) ∈ List.insertionSort ckptLe (ckptOrdering um mtime pref glob) :=
        (List.mem_insertionSort _).mpr (ckptOrdering_mem.mpr ⟨hq, hkq⟩)
      have hqtd : (kq, q) ∈ (List.insertionSort ckptLe (ckptOrdering um mtime pref
          glob)).take (((List.insertionSort ckptLe (ckptOrdering um mtime pref glob)).map
            Prod.snd).length - v.toNat) ++
          (List.insertionSort ckptLe (ckptOrdering um mtime pref glob)).drop
          (((List.insertionSort ckptLe (ckptOrdering um mtime pref glob)).map
            Prod.snd).length - v.toNat) := by
        rw [List.take_append_drop]
        exact hqS
      rw [List.mem_append] at hqtd
      have hqdrop : (kq, q) ∈ (List.insertionSort ckptLe (ckptOrdering um mtime pref
          glob)).drop (((List.insertionSort ckptLe (ckptOrdering um mtime pref glob)).map
            Prod.snd).length - v.toNat) := by
        rcases hqtd with hin | hin
        · exfalso
          apply hqnot
          rw [hrw, ← List.map_take]
          exact List.mem_map.mpr ⟨(kq, q), hin, rfl⟩
        · exact hin
      have hsorted : List.Sorted ckptLe
          (List.insertionSort ckptLe (ckptOrdering um mtime pref glob)) :=
        List.sorted_insertionSort ckptLe _
      rw [← List.take_append_drop (((List.insertionSort ckptLe (ckptOrdering um mtime pref
        glob)).map Prod.snd).length - v.toNat)
        (List.insertionSort ckptLe (ckptOrdering um mtime pref glob))] at hsorted
      have hrel := (List.pairwise_append.mp hsorted).2.2 pr hprtake (kq, q) hqdrop
      unfold ckptLe at hrel
      rcases hrel with h | ⟨h, -⟩
      · rw [hkp'] at h
        exact le_of_lt h
      · rw [hkp'] at h
        exact le_of_eq h

theorem c8_rotate_checkpoints_witness :
    (rotate_checkpoints (some 3) ["ckpt-1", "ckpt-2", "ckpt-3", "ckpt-4", "ckpt-5"] "ckpt"
        false (fun _ => 0)).length
      = ["ckpt-1", "ckpt-2", "ckpt-3", "ckpt-4", "ckpt-5"].length - (3 : Int).toNat ∧
    (∀ p ∈ rotate_checkpoints (some 3) ["ckpt-1", "ckpt-2", "ckpt-3", "ckpt-4", "ckpt-5"]
        "ckpt" false (fun _ => 0),
      p ∈ ["ckpt-1", "ckpt-2", "ckpt-3", "ckpt-4", "ckpt-5"]) ∧
    rotate_checkpoints (some 0) ["ckpt-1", "ckpt-2", "ckpt-3", "ckpt-4", "ckpt-5"] "ckpt"
        false (fun _ => 0) = [] := by
  refine ⟨?_, ?_, ?_⟩
  · exact ((c8_rotate_checkpoints ["ckpt-1", "ckpt-2", "ckpt-3", "ckpt-4", "ckpt-5"] "ckpt"
      false (fun _ => 0) 3).2.2.2.1 (by decide) (by decide) (by decide) (by decide)).1
  · exact ((c8_rotate_checkpoints ["ckpt-1", "ckpt-2", "ckpt-3", "ckpt-4", "ckpt-5"] "ckpt"
      false (fun _ => 0) 3).2.2.2.1 (by decide) (by decide) (by decide) (by decide)).2.1
  · exact (c8_rotate_checkpoints ["ckpt-1", "ckpt-2", "ckpt-3", "ckpt-4", "ckpt-5"] "ckpt"
      false (fun _ => 0) 0).2.1 (by decide)
